import Mathlib

/-!
# Verification of the CHIP-8 interpreter core (`chip8_core/src/lib.rs`)

Shallow embedding of the interpreter: the `Emu` state struct and its
operations (`new`, `reset`, `push`, `pop`, `fetch`, `execute`, `tick`) are
translated from the Rust source.  Machine integers are modelled as `ℕ` with
explicit `% 2^w` where the source wraps (`wrapping_add`, `overflowing_add`,
`overflowing_sub`, `u8` shifts); Rust's bounds-checked array indexing and
debug-mode arithmetic underflow, both of which panic, are modelled by an
`Except ExecErr` result; the `rand::random()` byte consumed by `CXNN` is an
explicit `rng` argument.  The `FX33` instruction computes its digits through
`f32` arithmetic in the source; it is modelled by an exact model of IEEE-754
binary32 round-to-nearest-even arithmetic over fractions of naturals, valid
on the (small, positive) values that instruction produces.
-/

namespace Chip8

/-- Errors with which an instruction cycle can abort:
`unimplemented op` models the `unimplemented!("Unimplemented opcode {}", op)`
panic of the dispatch fallback arm (carrying the raw 16-bit word), and the
other two model Rust panics: out-of-bounds array indexing and debug-mode
subtraction underflow (`sp -= 1` / `pc -= 2`). -/
inductive ExecErr where
  | unimplemented (op : ℕ)
  | indexOutOfBounds
  | arithUnderflow
deriving DecidableEq, Repr

/-- Pointwise update of a function, modelling `arr[i] = v` on a Rust array. -/
def updF {α : Type} (f : ℕ → α) (i : ℕ) (v : α) : ℕ → α :=
  fun j => if j = i then v else f j

/-- The `FONTSET` constant: 80 bytes, 5 bytes per hexadecimal glyph. -/
def FONTSET : List ℕ :=
  [0xF0, 0x90, 0x90, 0x90, 0xF0,
   0x20, 0x60, 0x20, 0x20, 0x70,
   0xF0, 0x10, 0xF0, 0x80, 0xF0,
   0xF0, 0x10, 0xF0, 0x10, 0xF0,
   0x90, 0x90, 0xF0, 0x10, 0x10,
   0xF0, 0x80, 0xF0, 0x10, 0xF0,
   0xF0, 0x80, 0xF0, 0x90, 0xF0,
   0xF0, 0x10, 0x20, 0x40, 0x40,
   0xF0, 0x90, 0xF0, 0x90, 0xF0,
   0xF0, 0x90, 0xF0, 0x10, 0xF0,
   0xF0, 0x90, 0xF0, 0x90, 0x90,
   0xE0, 0x90, 0xE0, 0x90, 0xE0,
   0xF0, 0x80, 0x80, 0x80, 0xF0,
   0xE0, 0x90, 0x90, 0x90, 0xE0,
   0xF0, 0x80, 0xF0, 0x80, 0xF0,
   0xF0, 0x80, 0xF0, 0x80, 0x80]

/-- The emulator state (struct `Emu`).  The fixed-size arrays
(`ram: [u8; 4096]`, `screen: [bool; 64*32]`, `v_reg: [u8; 16]`,
`stack: [u16; 16]`, `keys: [bool; 16]`) are modelled as total functions on ℕ;
every access the Rust code performs is bounds-checked in the operations
below, exactly where Rust's indexing would panic. -/
structure Emu where
  pc : ℕ
  ram : ℕ → ℕ
  screen : ℕ → Bool
  v_reg : ℕ → ℕ
  i_reg : ℕ
  sp : ℕ
  stack : ℕ → ℕ
  keys : ℕ → Bool
  dt : ℕ
  st : ℕ

/-- `Emu::new()`: zeroed state, `pc = START_ADDR = 0x200`, and the first
80 bytes of RAM overwritten with `FONTSET`. -/
def Emu.new : Emu :=
  { pc := 0x200
    ram := fun a => if a < 80 then FONTSET.getD a 0 else 0
    screen := fun _ => false
    v_reg := fun _ => 0
    i_reg := 0
    sp := 0
    stack := fun _ => 0
    keys := fun _ => false
    dt := 0
    st := 0 }

/-- `Emu::reset()`: reassigns every field to its initial value and rewrites
the font bytes; the prior state is not consulted. -/
def Emu.reset (_ : Emu) : Emu :=
  { pc := 0x200
    ram := fun a => if a < 80 then FONTSET.getD a 0 else 0
    screen := fun _ => false
    v_reg := fun _ => 0
    i_reg := 0
    sp := 0
    stack := fun _ => 0
    keys := fun _ => false
    dt := 0
    st := 0 }

/-- `Emu::push`: `stack[sp] = val; sp += 1`.  The indexing panics when
`sp ≥ 16`. -/
def Emu.push (s : Emu) (val : ℕ) : Except ExecErr Emu :=
  if s.sp < 16 then
    .ok { s with stack := updF s.stack s.sp val, sp := s.sp + 1 }
  else .error .indexOutOfBounds

/-- `Emu::pop`: `sp -= 1; stack[sp]`.  The decrement underflows (debug
panic) when `sp = 0`; the indexing panics when the decremented `sp ≥ 16`. -/
def Emu.pop (s : Emu) : Except ExecErr (ℕ × Emu) :=
  if s.sp = 0 then .error .arithUnderflow
  else if s.sp - 1 < 16 then .ok (s.stack (s.sp - 1), { s with sp := s.sp - 1 })
  else .error .indexOutOfBounds

/-- `Emu::fetch`: reads `ram[pc]` and `ram[pc+1]` (each access panics when
out of the 4096-byte RAM), combines them big-endian, advances `pc` by 2. -/
def Emu.fetch (s : Emu) : Except ExecErr (ℕ × Emu) :=
  if s.pc < 4096 then
    if s.pc + 1 < 4096 then
      let higher_byte := s.ram s.pc
      let lower_byte := s.ram (s.pc + 1)
      let op := (higher_byte <<< 8) ||| lower_byte
      .ok (op, { s with pc := s.pc + 2 })
    else .error .indexOutOfBounds
  else .error .indexOutOfBounds

end Chip8

namespace Chip8

/-! ## Exact model of the `f32` arithmetic used by the `FX33` arm

The source computes the BCD digits through `f32`:
`hundreds = (vx / 100.0).floor() as u8`, `tens = ((vx / 10.0) % 10.0).floor()
as u8`, `ones = (vx % 10.0).floor() as u8`.  IEEE-754 binary32 values are
modelled as exact fractions `num / den` of naturals; `/` on `f32` is exact
division followed by round-to-nearest-even at 24 significant bits, and `%`
on `f32` (`fmod`) is exact on representable operands. -/

/-- Round the fraction `a / b` (with `b ≠ 0`) to the nearest integer,
ties to even. -/
def rndNE (a b : ℕ) : ℕ :=
  let q := a / b
  let r2 := 2 * (a % b)
  if r2 < b then q
  else if b < r2 then q + 1
  else if q % 2 = 0 then q else q + 1

/-- The least `s` with `2 ^ 23 ≤ (a * 2 ^ s) / b`, searched over `s < 64`;
for `0 < a / b < 2 ^ 24` this scales `a / b` into the binary32 mantissa
window `[2^23, 2^24)`.  (All values arising in `FX33` lie well inside that
range, so the search never falls through.) -/
def mantShift (a b : ℕ) : ℕ :=
  ((List.range 64).find? (fun s => 2 ^ 23 * b ≤ 2 ^ s * a)).getD 0

/-- Round the exact fraction `a / b` (with `b ≠ 0`) to the nearest IEEE-754
binary32 value, round-to-nearest, ties-to-even, returned as an exact
fraction (numerator, power-of-two denominator).  Faithful for
`0 ≤ a / b < 2 ^ 24` — no overflow or subnormal range is exercised by
`FX33`, whose values lie in `[1/100, 256)` ∪ {0}. -/
def f32round (a b : ℕ) : ℕ × ℕ :=
  if a = 0 then (0, 1)
  else
    let s := mantShift a b
    (rndNE (a * 2 ^ s) b, 2 ^ s)

/-- `f32` division of exact fractions: exact quotient, correctly rounded. -/
def fdiv32 (a b c d : ℕ) : ℕ × ℕ :=
  f32round (a * d) (b * c)

/-- `f32` remainder `x % 10.0` for a nonnegative representable `x = a / b`:
`fmod` computes `x - 10 * trunc(x / 10)` exactly, i.e. `(a % (10 * b)) / b`. -/
def fmod10 (x : ℕ × ℕ) : ℕ × ℕ :=
  (x.1 % (10 * x.2), x.2)

/-- The three digit bytes the `FX33` arm computes from `vx` (which is exact
as an `f32` since `vx < 2 ^ 24`): `(vx / 100.0).floor() as u8`,
`((vx / 10.0) % 10.0).floor() as u8`, `(vx % 10.0).floor() as u8`.  The
`floor` of a nonnegative fraction followed by the in-range `as u8` cast is
natural-number division of numerator by denominator. -/
def bcdF32 (vx : ℕ) : ℕ × ℕ × ℕ :=
  let h := fdiv32 vx 1 100 1
  let t := fmod10 (fdiv32 vx 1 10 1)
  let o := fmod10 (vx, 1)
  (h.1 / h.2, t.1 / t.2, o.1 / o.2)

/-! ## The sprite-draw loop (`DXYN` arm) -/

/-- The sprite bit test `pixels & (0b1000_0000 >> x_line) != 0`: the
most-significant-first bit `c` of the row byte. -/
def bitAt (pixels c : ℕ) : Bool :=
  pixels &&& (128 >>> c) != 0

/-- The inner column loop of the `DXYN` arm, over the remaining column list
(the source iterates `x_line in 0..8`).  `yrow` is the already-wrapped row
coordinate `(y_coord + y_line) % 32`.  For each set bit:
`idx = (x_coord + x_line) % 64 + 64 * yrow`, then
`flipped |= screen[idx]; screen[idx] ^= true`. -/
def drawRowCols (xc yrow pixels : ℕ) : List ℕ → (ℕ → Bool) × Bool → (ℕ → Bool) × Bool
  | [], acc => acc
  | c :: cs, (scr, fl) =>
    if bitAt pixels c then
      let idx := (xc + c) % 64 + 64 * yrow
      drawRowCols xc yrow pixels cs (updF scr idx (!(scr idx)), fl || scr idx)
    else
      drawRowCols xc yrow pixels cs (scr, fl)

/-- The outer row loop of the `DXYN` arm, over the remaining row list
(the source iterates `y_line in 0..num_rows`).  Each row byte is read from
`ram[i_reg + y_line]`, which panics when the address is outside the RAM. -/
def drawRows (ram : ℕ → ℕ) (i xc yc : ℕ) :
    List ℕ → (ℕ → Bool) × Bool → Except ExecErr ((ℕ → Bool) × Bool)
  | [], acc => .ok acc
  | r :: rs, acc =>
    if i + r < 4096 then
      drawRows ram i xc yc rs (drawRowCols xc ((yc + r) % 32) (ram (i + r)) (List.range 8) acc)
    else .error .indexOutOfBounds

/-! ## The register-block store/load loops (`FX55` / `FX65` arms) -/

/-- The `FX55` loop `for idx in 0..=x { ram[i + idx] = v_reg[idx] }`,
by recursion on the last index `x`. -/
def storeRegs (v ram : ℕ → ℕ) (i : ℕ) : ℕ → (ℕ → ℕ)
  | 0 => updF ram i (v 0)
  | k + 1 => updF (storeRegs v ram i k) (i + (k + 1)) (v (k + 1))

/-- The `FX65` loop `for idx in 0..=x { v_reg[idx] = ram[i + idx] }`,
by recursion on the last index `x`. -/
def loadRegs (ram v : ℕ → ℕ) (i : ℕ) : ℕ → (ℕ → ℕ)
  | 0 => updF v 0 (ram i)
  | k + 1 => updF (loadRegs ram v i k) (k + 1) (ram (i + (k + 1)))

/-! ## The instruction dispatch (`Emu::execute`) -/

/-- `Emu::execute(op)`, the exhaustive dispatch on the four nibbles
`digit1..digit4` of the 16-bit word, translated arm by arm in source order
(the `match` becomes a first-match `if` chain).  `rng` supplies the byte that
`rand::random()` returns in the `CXNN` arm.  Rust panics (bounds-checked
indexing, debug-mode underflow) surface as `.error`; the fallback arm is
`unimplemented!("Unimplemented opcode {}", op)`. -/
def Emu.execute (s : Emu) (op rng : ℕ) : Except ExecErr Emu :=
  let digit1 := (op &&& 0xF000) >>> 12
  let digit2 := (op &&& 0x0F00) >>> 8
  let digit3 := (op &&& 0x00F0) >>> 4
  let digit4 := op &&& 0x000F
  -- 0000 - Nop
  if digit1 = 0 ∧ digit2 = 0 ∧ digit3 = 0 ∧ digit4 = 0 then
    .ok s
  -- 00E0 - Clear screen
  else if digit1 = 0 ∧ digit2 = 0 ∧ digit3 = 0xE ∧ digit4 = 0 then
    .ok { s with screen := fun _ => false }
  -- 00EE - Return from Subroutine
  else if digit1 = 0 ∧ digit2 = 0 ∧ digit3 = 0xE ∧ digit4 = 0xE then
    match s.pop with
    | .error e => .error e
    | .ok (return_adress, s') => .ok { s' with pc := return_adress }
  -- 1NNN - Jump
  else if digit1 = 1 then
    .ok { s with pc := op &&& 0xFFF }
  -- 2NNN - Call Subroutine
  else if digit1 = 2 then
    match s.push s.pc with
    | .error e => .error e
    | .ok s' => .ok { s' with pc := op &&& 0xFFF }
  -- 3XNN - Skip next if VX == NN
  else if digit1 = 3 then
    if s.v_reg digit2 = (op &&& 0xFF) then .ok { s with pc := s.pc + 2 } else .ok s
  -- 4XNN - Skip next if VX != NN
  else if digit1 = 4 then
    if s.v_reg digit2 ≠ (op &&& 0xFF) then .ok { s with pc := s.pc + 2 } else .ok s
  -- 5XY0 - Skip next if VX == VY
  else if digit1 = 5 ∧ digit4 = 0 then
    if s.v_reg digit2 = s.v_reg digit3 then .ok { s with pc := s.pc + 2 } else .ok s
  -- 6XNN - VX = NN
  else if digit1 = 6 then
    .ok { s with v_reg := updF s.v_reg digit2 (op &&& 0xFF) }
  -- 7XNN - VX += NN (wrapping_add on u8)
  else if digit1 = 7 then
    .ok { s with v_reg := updF s.v_reg digit2 ((s.v_reg digit2 + (op &&& 0xFF)) % 256) }
  -- 8XY0 - VX = VY
  else if digit1 = 8 ∧ digit4 = 0 then
    .ok { s with v_reg := updF s.v_reg digit2 (s.v_reg digit3) }
  -- 8XY1 - VX |= VY
  else if digit1 = 8 ∧ digit4 = 1 then
    .ok { s with v_reg := updF s.v_reg digit2 (s.v_reg digit2 ||| s.v_reg digit3) }
  -- 8XY2 - VX &= VY
  else if digit1 = 8 ∧ digit4 = 2 then
    .ok { s with v_reg := updF s.v_reg digit2 (s.v_reg digit2 &&& s.v_reg digit3) }
  -- 8XY3 - VX ^= VY
  else if digit1 = 8 ∧ digit4 = 3 then
    .ok { s with v_reg := updF s.v_reg digit2 (s.v_reg digit2 ^^^ s.v_reg digit3) }
  -- 8XY4 - VX += VY (overflowing_add on u8); VF = carry
  else if digit1 = 8 ∧ digit4 = 4 then
    let new_vx := (s.v_reg digit2 + s.v_reg digit3) % 256
    let vf := if 256 ≤ s.v_reg digit2 + s.v_reg digit3 then 1 else 0
    .ok { s with v_reg := updF (updF s.v_reg digit2 new_vx) 0xF vf }
  -- 8XY5 - VX -= VY (overflowing_sub on u8); VF = ¬borrow
  else if digit1 = 8 ∧ digit4 = 5 then
    let new_vx := (s.v_reg digit2 + 256 - s.v_reg digit3 % 256) % 256
    let vf := if s.v_reg digit2 < s.v_reg digit3 then 0 else 1
    .ok { s with v_reg := updF (updF s.v_reg digit2 new_vx) 0xF vf }
  -- 8XY6 - VX >>= 1; VF = pre-shift lsb
  else if digit1 = 8 ∧ digit4 = 6 then
    let lsb := s.v_reg digit2 &&& 1
    .ok { s with v_reg := updF (updF s.v_reg digit2 (s.v_reg digit2 / 2)) 0xF lsb }
  -- 8XY7 - VX = VY - VX (overflowing_sub on u8); VF = ¬borrow
  else if digit1 = 8 ∧ digit4 = 7 then
    let new_vx := (s.v_reg digit3 + 256 - s.v_reg digit2 % 256) % 256
    let vf := if s.v_reg digit3 < s.v_reg digit2 then 0 else 1
    .ok { s with v_reg := updF (updF s.v_reg digit2 new_vx) 0xF vf }
  -- 8XYE - VX <<= 1; VF = pre-shift msb
  else if digit1 = 8 ∧ digit4 = 0xE then
    let msb := (s.v_reg digit2 >>> 7) &&& 1
    .ok { s with v_reg := updF (updF s.v_reg digit2 (s.v_reg digit2 * 2 % 256)) 0xF msb }
  -- 9XY0 - Skip if VX != VY
  else if digit1 = 9 ∧ digit4 = 0 then
    if s.v_reg digit2 ≠ s.v_reg digit3 then .ok { s with pc := s.pc + 2 } else .ok s
  -- ANNN - I = NNN
  else if digit1 = 0xA then
    .ok { s with i_reg := op &&& 0xFFF }
  -- BNNN - Jump to V0 + NNN
  else if digit1 = 0xB then
    .ok { s with pc := s.v_reg 0 + (op &&& 0xFFF) }
  -- CXNN - VX = rand() & NN
  else if digit1 = 0xC then
    .ok { s with v_reg := updF s.v_reg digit2 (rng &&& (op &&& 0xFF)) }
  -- DXYN - Draw Sprite
  else if digit1 = 0xD then
    match drawRows s.ram s.i_reg (s.v_reg digit2) (s.v_reg digit3)
            (List.range digit4) (s.screen, false) with
    | .error e => .error e
    | .ok (scr, flipped) =>
      .ok { s with screen := scr
                   v_reg := updF s.v_reg 0xF (if flipped then 1 else 0) }
  -- EX9E - Skip if Key Pressed (`keys[vx]` panics when `vx ≥ 16`)
  else if digit1 = 0xE ∧ digit3 = 9 ∧ digit4 = 0xE then
    if s.v_reg digit2 < 16 then
      if s.keys (s.v_reg digit2) then .ok { s with pc := s.pc + 2 } else .ok s
    else .error .indexOutOfBounds
  -- EXA1 - Skip if Key Not Pressed (`keys[vx]` panics when `vx ≥ 16`)
  else if digit1 = 0xE ∧ digit3 = 0xA ∧ digit4 = 1 then
    if s.v_reg digit2 < 16 then
      if !(s.keys (s.v_reg digit2)) then .ok { s with pc := s.pc + 2 } else .ok s
    else .error .indexOutOfBounds
  -- FX07 - VX = DT
  else if digit1 = 0xF ∧ digit3 = 0 ∧ digit4 = 7 then
    .ok { s with v_reg := updF s.v_reg digit2 s.dt }
  -- FX0A - Wait for Key Press (scan keys 0..16 in order, break on first hit;
  -- when none is pressed, `pc -= 2` underflows (debug panic) when `pc < 2`)
  else if digit1 = 0xF ∧ digit3 = 0 ∧ digit4 = 0xA then
    match (List.range 16).find? (fun i => s.keys i) with
    | some i => .ok { s with v_reg := updF s.v_reg digit2 i }
    | none => if s.pc < 2 then .error .arithUnderflow else .ok { s with pc := s.pc - 2 }
  -- FX15 - DT = VX
  else if digit1 = 0xF ∧ digit3 = 1 ∧ digit4 = 5 then
    .ok { s with dt := s.v_reg digit2 }
  -- FX18 - ST = VX
  else if digit1 = 0xF ∧ digit3 = 1 ∧ digit4 = 8 then
    .ok { s with st := s.v_reg digit2 }
  -- FX1E - I += VX (wrapping_add on u16)
  else if digit1 = 0xF ∧ digit3 = 1 ∧ digit4 = 0xE then
    .ok { s with i_reg := (s.i_reg + s.v_reg digit2) % 65536 }
  -- FX29 - Set I to Font Address
  else if digit1 = 0xF ∧ digit3 = 2 ∧ digit4 = 9 then
    .ok { s with i_reg := s.v_reg digit2 * 5 }
  -- FX33 - BCD of VX via f32 (writes ram[i], ram[i+1], ram[i+2]; the loop of
  -- three indexings panics exactly when `i_reg + 2 ≥ 4096`)
  else if digit1 = 0xF ∧ digit3 = 3 ∧ digit4 = 3 then
    if s.i_reg + 2 < 4096 then
      let d := bcdF32 (s.v_reg digit2)
      .ok { s with ram := updF (updF (updF s.ram s.i_reg d.1) (s.i_reg + 1) d.2.1)
                            (s.i_reg + 2) d.2.2 }
    else .error .indexOutOfBounds
  -- FX55 - Store V0..=VX into ram[i..] (the `x+1` indexings panic exactly
  -- when `i_reg + x ≥ 4096`)
  else if digit1 = 0xF ∧ digit3 = 5 ∧ digit4 = 5 then
    if s.i_reg + digit2 < 4096 then
      .ok { s with ram := storeRegs s.v_reg s.ram s.i_reg digit2 }
    else .error .indexOutOfBounds
  -- FX65 - Load ram[i..] into V0..=VX (the `x+1` indexings panic exactly
  -- when `i_reg + x ≥ 4096`)
  else if digit1 = 0xF ∧ digit3 = 6 ∧ digit4 = 5 then
    if s.i_reg + digit2 < 4096 then
      .ok { s with v_reg := loadRegs s.ram s.v_reg s.i_reg digit2 }
    else .error .indexOutOfBounds
  -- unimplemented: `unimplemented!("Unimplemented opcode {}", op)`
  else
    .error (.unimplemented op)

/-- `Emu::tick()`: `let op = self.fetch(); self.execute(op)`. -/
def Emu.tick (s : Emu) (rng : ℕ) : Except ExecErr Emu :=
  match s.fetch with
  | .error e => .error e
  | .ok (op, s') => s'.execute op rng

/-- The nibble 4-tuples covered by the dispatch table of `Emu::execute`:
the disjunction of the guards of the 35 implemented arms, in source order.
An opcode word satisfying none of them falls through to the
`unimplemented!` arm. -/
def isImplemented (op : ℕ) : Prop :=
  let digit1 := (op &&& 0xF000) >>> 12
  let digit2 := (op &&& 0x0F00) >>> 8
  let digit3 := (op &&& 0x00F0) >>> 4
  let digit4 := op &&& 0x000F
  (digit1 = 0 ∧ digit2 = 0 ∧ digit3 = 0 ∧ digit4 = 0) ∨
  (digit1 = 0 ∧ digit2 = 0 ∧ digit3 = 0xE ∧ digit4 = 0) ∨
  (digit1 = 0 ∧ digit2 = 0 ∧ digit3 = 0xE ∧ digit4 = 0xE) ∨
  (digit1 = 1) ∨
  (digit1 = 2) ∨
  (digit1 = 3) ∨
  (digit1 = 4) ∨
  (digit1 = 5 ∧ digit4 = 0) ∨
  (digit1 = 6) ∨
  (digit1 = 7) ∨
  (digit1 = 8 ∧ digit4 = 0) ∨
  (digit1 = 8 ∧ digit4 = 1) ∨
  (digit1 = 8 ∧ digit4 = 2) ∨
  (digit1 = 8 ∧ digit4 = 3) ∨
  (digit1 = 8 ∧ digit4 = 4) ∨
  (digit1 = 8 ∧ digit4 = 5) ∨
  (digit1 = 8 ∧ digit4 = 6) ∨
  (digit1 = 8 ∧ digit4 = 7) ∨
  (digit1 = 8 ∧ digit4 = 0xE) ∨
  (digit1 = 9 ∧ digit4 = 0) ∨
  (digit1 = 0xA) ∨
  (digit1 = 0xB) ∨
  (digit1 = 0xC) ∨
  (digit1 = 0xD) ∨
  (digit1 = 0xE ∧ digit3 = 9 ∧ digit4 = 0xE) ∨
  (digit1 = 0xE ∧ digit3 = 0xA ∧ digit4 = 1) ∨
  (digit1 = 0xF ∧ digit3 = 0 ∧ digit4 = 7) ∨
  (digit1 = 0xF ∧ digit3 = 0 ∧ digit4 = 0xA) ∨
  (digit1 = 0xF ∧ digit3 = 1 ∧ digit4 = 5) ∨
  (digit1 = 0xF ∧ digit3 = 1 ∧ digit4 = 8) ∨
  (digit1 = 0xF ∧ digit3 = 1 ∧ digit4 = 0xE) ∨
  (digit1 = 0xF ∧ digit3 = 2 ∧ digit4 = 9) ∨
  (digit1 = 0xF ∧ digit3 = 3 ∧ digit4 = 3) ∨
  (digit1 = 0xF ∧ digit3 = 5 ∧ digit4 = 5) ∨
  (digit1 = 0xF ∧ digit3 = 6 ∧ digit4 = 5)

set_option synthInstance.maxSize 2048 in
set_option synthInstance.maxHeartbeats 1000000 in
instance isImplemented.instDecidable (op : ℕ) : Decidable (isImplemented op) := by
  unfold isImplemented
  dsimp only
  infer_instance

/-! ## Bridging lemmas: the nibble extractions as division/remainder -/

theorem and_shiftRight_distrib (op m k : ℕ) :
    (op &&& m) >>> k = (op >>> k) &&& (m >>> k) := by
  apply Nat.eq_of_testBit_eq
  intro i
  simp [Nat.testBit_shiftRight, Nat.testBit_and, Nat.add_comm]

theorem digit1_eq (op : ℕ) : (op &&& 0xF000) >>> 12 = op / 4096 % 16 := by
  rw [and_shiftRight_distrib]
  have h1 : (0xF000 : ℕ) >>> 12 = 15 := by decide
  have h15 : (15 : ℕ) = 2 ^ 4 - 1 := by norm_num
  rw [h1, h15, Nat.and_pow_two_sub_one_eq_mod, Nat.shiftRight_eq_div_pow]

theorem digit2_eq (op : ℕ) : (op &&& 0x0F00) >>> 8 = op / 256 % 16 := by
  rw [and_shiftRight_distrib]
  have h1 : (0x0F00 : ℕ) >>> 8 = 15 := by decide
  have h15 : (15 : ℕ) = 2 ^ 4 - 1 := by norm_num
  rw [h1, h15, Nat.and_pow_two_sub_one_eq_mod, Nat.shiftRight_eq_div_pow]

theorem digit3_eq (op : ℕ) : (op &&& 0x00F0) >>> 4 = op / 16 % 16 := by
  rw [and_shiftRight_distrib]
  have h1 : (0x00F0 : ℕ) >>> 4 = 15 := by decide
  have h15 : (15 : ℕ) = 2 ^ 4 - 1 := by norm_num
  rw [h1, h15, Nat.and_pow_two_sub_one_eq_mod, Nat.shiftRight_eq_div_pow]

theorem digit4_eq (op : ℕ) : op &&& 0x000F = op % 16 := by
  have h15 : (0x000F : ℕ) = 2 ^ 4 - 1 := by norm_num
  rw [h15, Nat.and_pow_two_sub_one_eq_mod]

theorem nnn_eq (op : ℕ) : op &&& 0xFFF = op % 4096 := by
  have h : (0xFFF : ℕ) = 2 ^ 12 - 1 := by norm_num
  rw [h, Nat.and_pow_two_sub_one_eq_mod]

theorem nn_eq (op : ℕ) : op &&& 0xFF = op % 256 := by
  have h : (0xFF : ℕ) = 2 ^ 8 - 1 := by norm_num
  rw [h, Nat.and_pow_two_sub_one_eq_mod]

/-! ## Concrete states used in witnesses and counterexamples -/

/-- A fresh state whose `V0` is `255` (reachable by executing `60FF`). -/
def stateV0Max : Emu := { Emu.new with v_reg := updF Emu.new.v_reg 0 255 }

/-- A fresh state with `V15 = 1` and `V0 = 1`. -/
def stateVFV0One : Emu :=
  { Emu.new with v_reg := updF (updF Emu.new.v_reg 0xF 1) 0 1 }

/-- A fresh state whose `V2` holds `20`, an index past the 16-entry key array. -/
def stateV2Twenty : Emu := { Emu.new with v_reg := updF Emu.new.v_reg 2 20 }

/-! ## Claim theorems -/

/-- **C5.** For every state, `reset()` yields a state identical to the state
produced by `new()`: `pc` equals the load offset `0x200`, memory is all zero
except the first 80 bytes which hold the built-in font, and the registers,
index register, stack, stack pointer, keys, timers and framebuffer are all
zeroed/cleared. -/
theorem reset_equiv_new :
    (∀ s : Emu, Emu.reset s = Emu.new) ∧
    Emu.new.pc = 0x200 ∧
    (∀ a, Emu.new.ram a = if a < 80 then FONTSET.getD a 0 else 0) ∧
    (∀ i, Emu.new.v_reg i = 0) ∧
    Emu.new.i_reg = 0 ∧
    Emu.new.sp = 0 ∧
    (∀ i, Emu.new.stack i = 0) ∧
    (∀ i, Emu.new.keys i = false) ∧
    Emu.new.dt = 0 ∧
    Emu.new.st = 0 ∧
    (∀ p, Emu.new.screen p = false) :=
  ⟨fun _ => rfl, rfl, fun _ => rfl, fun _ => rfl, rfl, rfl,
   fun _ => rfl, fun _ => rfl, rfl, rfl, fun _ => rfl⟩

/-- **C7.** For every state and every 12-bit address operand `NNN`,
executing `BNNN` sets `pc` to `V0 + NNN` with no 12-bit mask applied to the
sum; at `V0 = 255`, `NNN = 0xFFF` the resulting `pc` is `4350 > 0xFFF`. -/
theorem bnnn_unmasked (s : Emu) (rng nnn : ℕ) (h : nnn < 4096) :
    (Emu.execute s (0xB000 + nnn) rng).toOption.map Emu.pc
      = some (s.v_reg 0 + nnn) ∧
    (Emu.execute stateV0Max 0xBFFF 0).toOption.map Emu.pc = some 4350 ∧
    0xFFF < 4350 := by
  refine ⟨?_, by decide, by norm_num⟩
  have hd1 : (0xB000 + nnn) / 4096 % 16 = 0xB := by omega
  have hm : (0xB000 + nnn) % 4096 = nnn := by omega
  simp only [Emu.execute, digit1_eq, digit2_eq, digit3_eq, digit4_eq, nnn_eq,
    nn_eq, hd1, hm]
  norm_num [Except.toOption]

theorem bnnn_unmasked_witness :
    (Emu.execute stateV0Max (0xB000 + 0xFFF) 0).toOption.map Emu.pc
      = some (stateV0Max.v_reg 0 + 0xFFF) :=
  (bnnn_unmasked stateV0Max 0 0xFFF (by norm_num)).1

/-- **C8.** For every 16-bit opcode word whose nibble 4-tuple matches no
entry in the dispatch table, execution aborts with the fatal
"unimplemented opcode" error carrying the raw word; the result is an
`.error`, so no recovery or skip-and-continue occurs. -/
theorem unimplemented_opcode (s : Emu) (op rng : ℕ) (h : ¬ isImplemented op) :
    Emu.execute s op rng = .error (.unimplemented op) := by
  simp only [isImplemented, not_or] at h
  obtain ⟨h1, h2, h3, h4, h5, h6, h7, h8, h9, h10, h11, h12, h13, h14, h15, h16,
    h17, h18, h19, h20, h21, h22, h23, h24, h25, h26, h27, h28, h29, h30, h31,
    h32, h33, h34, h35⟩ := h
  simp only [Emu.execute]
  rw [if_neg h1, if_neg h2, if_neg h3, if_neg h4, if_neg h5, if_neg h6,
    if_neg h7, if_neg h8, if_neg h9, if_neg h10, if_neg h11, if_neg h12,
    if_neg h13, if_neg h14, if_neg h15, if_neg h16, if_neg h17, if_neg h18,
    if_neg h19, if_neg h20, if_neg h21, if_neg h22, if_neg h23, if_neg h24,
    if_neg h25, if_neg h26, if_neg h27, if_neg h28, if_neg h29, if_neg h30,
    if_neg h31, if_neg h32, if_neg h33, if_neg h34, if_neg h35]

theorem unimplemented_opcode_witness :
    Emu.execute Emu.new 0x5001 0 = .error (.unimplemented 0x5001) :=
  unimplemented_opcode Emu.new 0x5001 0 (by decide)

/-- **C2 counterexample.** At `X = 15`, `Y = 0` with `V15 = 1`, `V0 = 1`,
instruction `8F04` leaves `V15 = 0` — the carry-flag write overwrites the
arithmetic result in `VF = V15` — not `(V15 + V0) % 256 = 2` as the claim,
quantified over all register indices `X`, demands. -/
theorem arith_wrap_claim_false :
    ((Emu.execute stateVFV0One 0x8F04 0).toOption.map (fun e => e.v_reg 0xF)
        = some 0) ∧
    ¬ ((Emu.execute stateVFV0One 0x8F04 0).toOption.map (fun e => e.v_reg 0xF)
        = some ((stateVFV0One.v_reg 0xF + stateVFV0One.v_reg 0) % 256)) := by
  decide

/-- **C2 (amended).** For all register indices `X, Y` and 8-bit `Vx, Vy, NN`:
`7XNN` sets `Vx` to `(Vx + NN) % 256`; for `X ≠ 15`, `8XY4` sets `Vx` to
`(Vx + Vy) % 256` and `8XY5` sets `Vx` to `(Vx − Vy) mod 256`; for every `X`
(including 15, where the flag write overwrites the arithmetic result),
`8XY4` sets `VF` to 1 iff the true sum is at least 256 and `8XY5` sets `VF`
to 0 iff `Vx < Vy`. -/
theorem arith_wrap (s : Emu) (rng x y nn : ℕ) (hx : x < 16) (hy : y < 16)
    (hnn : nn < 256) (hvx : s.v_reg x < 256) (hvy : s.v_reg y < 256) :
    ((Emu.execute s (0x7000 + 256 * x + nn) rng).toOption.map
        (fun e => e.v_reg x) = some ((s.v_reg x + nn) % 256)) ∧
    (x ≠ 0xF →
      (Emu.execute s (0x8004 + 256 * x + 16 * y) rng).toOption.map
          (fun e => e.v_reg x) = some ((s.v_reg x + s.v_reg y) % 256)) ∧
    (x ≠ 0xF →
      (Emu.execute s (0x8005 + 256 * x + 16 * y) rng).toOption.map
          (fun e => e.v_reg x)
        = some ((((s.v_reg x : ℤ) - (s.v_reg y : ℤ)) % 256).toNat)) ∧
    ((Emu.execute s (0x8004 + 256 * x + 16 * y) rng).toOption.map
        (fun e => e.v_reg 0xF)
      = some (if 256 ≤ s.v_reg x + s.v_reg y then 1 else 0)) ∧
    ((Emu.execute s (0x8005 + 256 * x + 16 * y) rng).toOption.map
        (fun e => e.v_reg 0xF)
      = some (if s.v_reg x < s.v_reg y then 0 else 1)) := by
  have hd7 : (0x7000 + 256 * x + nn) / 4096 % 16 = 7 := by omega
  have hx7 : (0x7000 + 256 * x + nn) / 256 % 16 = x := by omega
  have hn7 : (0x7000 + 256 * x + nn) % 256 = nn := by omega
  have hd4a : (0x8004 + 256 * x + 16 * y) / 4096 % 16 = 8 := by omega
  have hx4a : (0x8004 + 256 * x + 16 * y) / 256 % 16 = x := by omega
  have hy4a : (0x8004 + 256 * x + 16 * y) / 16 % 16 = y := by omega
  have hl4a : (0x8004 + 256 * x + 16 * y) % 16 = 4 := by omega
  have hd5a : (0x8005 + 256 * x + 16 * y) / 4096 % 16 = 8 := by omega
  have hx5a : (0x8005 + 256 * x + 16 * y) / 256 % 16 = x := by omega
  have hy5a : (0x8005 + 256 * x + 16 * y) / 16 % 16 = y := by omega
  have hl5a : (0x8005 + 256 * x + 16 * y) % 16 = 5 := by omega
  have hsub : (s.v_reg x + 256 - s.v_reg y % 256) % 256
      = (((s.v_reg x : ℤ) - (s.v_reg y : ℤ)) % 256).toNat := by omega
  refine ⟨?_, fun hxf => ?_, fun hxf => ?_, ?_, ?_⟩
  · simp only [Emu.execute, digit1_eq, digit2_eq, digit3_eq, digit4_eq,
      nnn_eq, nn_eq, hd7, hx7, hn7]
    norm_num [Except.toOption, updF]
  · simp only [Emu.execute, digit1_eq, digit2_eq, digit3_eq, digit4_eq,
      nnn_eq, nn_eq, hd4a, hx4a, hy4a, hl4a]
    norm_num [Except.toOption, updF, hxf]
  · simp only [Emu.execute, digit1_eq, digit2_eq, digit3_eq, digit4_eq,
      nnn_eq, nn_eq, hd5a, hx5a, hy5a, hl5a]
    norm_num [Except.toOption, updF, hxf, hsub]
  · simp only [Emu.execute, digit1_eq, digit2_eq, digit3_eq, digit4_eq,
      nnn_eq, nn_eq, hd4a, hx4a, hy4a, hl4a]
    norm_num [Except.toOption, updF]
  · simp only [Emu.execute, digit1_eq, digit2_eq, digit3_eq, digit4_eq,
      nnn_eq, nn_eq, hd5a, hx5a, hy5a, hl5a]
    norm_num [Except.toOption, updF]

theorem arith_wrap_witness :
    (Emu.execute stateV0Max (0x7000 + 256 * 0 + 200) 0).toOption.map
        (fun e => e.v_reg 0) = some ((stateV0Max.v_reg 0 + 200) % 256) :=
  (arith_wrap stateV0Max 0 0 1 200 (by norm_num) (by norm_num) (by norm_num)
    (by decide) (by decide)).1

/-- **C9.** `EX9E` and `EXA1` index the 16-entry key array by the full 8-bit
value of `Vx` without masking: when `Vx ≤ 15` they are total and skip (or
not) by `keys[Vx]`; when `Vx ≥ 16` they abort with the index-out-of-bounds
panic instead of skipping or not skipping. -/
theorem key_index_bounds (s : Emu) (rng x : ℕ) (hx : x < 16) :
    (s.v_reg x ≤ 15 →
      ((Emu.execute s (0xE09E + 256 * x) rng).toOption.map Emu.pc
          = some (if s.keys (s.v_reg x) then s.pc + 2 else s.pc)) ∧
      ((Emu.execute s (0xE0A1 + 256 * x) rng).toOption.map Emu.pc
          = some (if s.keys (s.v_reg x) then s.pc else s.pc + 2))) ∧
    (16 ≤ s.v_reg x →
      Emu.execute s (0xE09E + 256 * x) rng = .error .indexOutOfBounds ∧
      Emu.execute s (0xE0A1 + 256 * x) rng = .error .indexOutOfBounds) := by
  have hd9 : (0xE09E + 256 * x) / 4096 % 16 = 0xE := by omega
  have hx9 : (0xE09E + 256 * x) / 256 % 16 = x := by omega
  have hy9 : (0xE09E + 256 * x) / 16 % 16 = 9 := by omega
  have hl9 : (0xE09E + 256 * x) % 16 = 0xE := by omega
  have hdA : (0xE0A1 + 256 * x) / 4096 % 16 = 0xE := by omega
  have hxA : (0xE0A1 + 256 * x) / 256 % 16 = x := by omega
  have hyA : (0xE0A1 + 256 * x) / 16 % 16 = 0xA := by omega
  have hlA : (0xE0A1 + 256 * x) % 16 = 1 := by omega
  constructor
  · intro hv
    constructor
    · simp only [Emu.execute, digit1_eq, digit2_eq, digit3_eq, digit4_eq,
        nnn_eq, nn_eq, hd9, hx9, hy9, hl9]
      rw [if_neg (by norm_num), if_neg (by norm_num), if_neg (by norm_num),
        if_neg (by norm_num)]
      norm_num
      rw [if_pos (by omega)]
      by_cases hk : s.keys (s.v_reg x) <;> simp [hk, Except.toOption]
    · simp only [Emu.execute, digit1_eq, digit2_eq, digit3_eq, digit4_eq,
        nnn_eq, nn_eq, hdA, hxA, hyA, hlA]
      rw [if_neg (by norm_num), if_neg (by norm_num), if_neg (by norm_num),
        if_neg (by norm_num)]
      norm_num
      rw [if_pos (by omega)]
      by_cases hk : s.keys (s.v_reg x) <;> simp [hk, Except.toOption]
  · intro hv
    have hnv : ¬ (s.v_reg x < 16) := by omega
    constructor
    · simp only [Emu.execute, digit1_eq, digit2_eq, digit3_eq, digit4_eq,
        nnn_eq, nn_eq, hd9, hx9, hy9, hl9]
      norm_num [hnv]
    · simp only [Emu.execute, digit1_eq, digit2_eq, digit3_eq, digit4_eq,
        nnn_eq, nn_eq, hdA, hxA, hyA, hlA]
      norm_num [hnv]

theorem key_index_bounds_witness :
    Emu.execute stateV2Twenty (0xE09E + 256 * 2) 0 = .error .indexOutOfBounds ∧
    Emu.execute stateV2Twenty (0xE0A1 + 256 * 2) 0 = .error .indexOutOfBounds :=
  (key_index_bounds stateV2Twenty 0 2 (by norm_num)).2 (by decide)

set_option maxRecDepth 8192 in
/-- The `f32` digit extraction of the `FX33` arm agrees with exact integer
decimal-digit extraction on every 8-bit input: the rounding errors of the
two correctly-rounded binary32 divisions are too small to cross a floor
boundary anywhere in `0..255`. -/
theorem bcdF32_eq_digits :
    ∀ vx < 256, bcdF32 vx = (vx / 100, vx / 10 % 10, vx % 10) := by
  decide

/-- A fresh state with `I = 0x300` and `V0 = 255`. -/
def stateBCD255 : Emu :=
  { Emu.new with i_reg := 0x300, v_reg := updF Emu.new.v_reg 0 255 }

/-- A fresh state with `I = 0x300` and `V0 = 7`. -/
def stateBCD7 : Emu :=
  { Emu.new with i_reg := 0x300, v_reg := updF Emu.new.v_reg 0 7 }

/-- **C6.** `FX33` writes the decimal digits of `Vx` to memory:
`mem[I] = Vx / 100`, `mem[I+1] = Vx / 10 % 10`, `mem[I+2] = Vx % 10`;
in particular `Vx = 255` writes `[2, 5, 5]` and `Vx = 7` writes
`[0, 0, 7]`. -/
theorem fx33_bcd (s : Emu) (rng x : ℕ) (hx : x < 16) (hvx : s.v_reg x < 256)
    (hi : s.i_reg + 2 < 4096) :
    ((Emu.execute s (0xF033 + 256 * x) rng).toOption.map
        (fun e => (e.ram s.i_reg, e.ram (s.i_reg + 1), e.ram (s.i_reg + 2)))
      = some (s.v_reg x / 100, s.v_reg x / 10 % 10, s.v_reg x % 10)) ∧
    ((Emu.execute stateBCD255 0xF033 0).toOption.map
        (fun e => (e.ram 0x300, e.ram 0x301, e.ram 0x302))
      = some (2, 5, 5)) ∧
    ((Emu.execute stateBCD7 0xF033 0).toOption.map
        (fun e => (e.ram 0x300, e.ram 0x301, e.ram 0x302))
      = some (0, 0, 7)) := by
  refine ⟨?_, by decide, by decide⟩
  have hd1 : (0xF033 + 256 * x) / 4096 % 16 = 0xF := by omega
  have hd2 : (0xF033 + 256 * x) / 256 % 16 = x := by omega
  have hd3 : (0xF033 + 256 * x) / 16 % 16 = 3 := by omega
  have hd4 : (0xF033 + 256 * x) % 16 = 3 := by omega
  have hb := bcdF32_eq_digits (s.v_reg x) hvx
  simp only [Emu.execute, digit1_eq, digit2_eq, digit3_eq, digit4_eq,
    nnn_eq, nn_eq, hd1, hd2, hd3, hd4, hb]
  norm_num [Except.toOption, updF, hi]

theorem fx33_bcd_witness :
    (Emu.execute stateBCD255 (0xF033 + 256 * 0) 0).toOption.map
        (fun e => (e.ram stateBCD255.i_reg, e.ram (stateBCD255.i_reg + 1),
                   e.ram (stateBCD255.i_reg + 2)))
      = some (stateBCD255.v_reg 0 / 100, stateBCD255.v_reg 0 / 10 % 10,
              stateBCD255.v_reg 0 % 10) :=
  (fx33_bcd stateBCD255 0 0 (by norm_num) (by decide) (by decide)).1

/-- Pointwise value of the `FX55` store loop: addresses `i..i+x` receive
`V0..Vx`, every other address keeps its byte. -/
theorem storeRegs_eval (v ram : ℕ → ℕ) (i : ℕ) :
    ∀ x a, storeRegs v ram i x a
      = if i ≤ a ∧ a ≤ i + x then v (a - i) else ram a := by
  intro x
  induction x with
  | zero =>
    intro a
    simp only [storeRegs, updF]
    by_cases h : a = i
    · subst h
      rw [if_pos rfl, if_pos (by omega)]
      simp
    · rw [if_neg h, if_neg (by omega)]
  | succ k ih =>
    intro a
    simp only [storeRegs, updF]
    by_cases h : a = i + (k + 1)
    · subst h
      rw [if_pos rfl, if_pos (by omega)]
      congr 1
      omega
    · rw [if_neg h, ih a]
      by_cases h2 : i ≤ a ∧ a ≤ i + k
      · rw [if_pos h2, if_pos (by omega)]
      · rw [if_neg h2, if_neg (by omega)]

/-- Pointwise value of the `FX65` load loop: registers `0..x` receive
`ram[i]..ram[i+x]`, every other register keeps its value. -/
theorem loadRegs_eval (ram v : ℕ → ℕ) (i : ℕ) :
    ∀ x j, loadRegs ram v i x j
      = if j ≤ x then ram (i + j) else v j := by
  intro x
  induction x with
  | zero =>
    intro j
    simp only [loadRegs, updF]
    by_cases h : j = 0
    · subst h
      rw [if_pos rfl, if_pos (by omega)]
      simp
    · rw [if_neg h, if_neg (by omega)]
  | succ k ih =>
    intro j
    simp only [loadRegs, updF]
    by_cases h : j = k + 1
    · subst h
      rw [if_pos rfl, if_pos (by omega)]
    · rw [if_neg h, ih j]
      by_cases h2 : j ≤ k
      · rw [if_pos h2, if_pos (by omega)]
      · rw [if_neg h2, if_neg (by omega)]

/-- **C10.** `FX55` writes only `mem[I..I+X]` (from `V0..VX`), leaving `I`,
every register, `pc` (beyond the fetch advance, which `execute` does not
touch), the framebuffer, keys, stack, stack pointer and timers unchanged;
`FX65` writes only registers `V0..VX` (from `mem[I..I+X]`), leaving `I` and
all memory unchanged.  In particular neither instruction increments `I`. -/
theorem fx55_fx65_frame (s : Emu) (rng x : ℕ) (hx : x < 16)
    (hi : s.i_reg + x < 4096) :
    ((Emu.execute s (0xF055 + 256 * x) rng).toOption.map (fun e =>
        (e.pc, e.i_reg, e.sp, e.dt, e.st))
      = some (s.pc, s.i_reg, s.sp, s.dt, s.st)) ∧
    (∀ j, (Emu.execute s (0xF055 + 256 * x) rng).toOption.map
        (fun e => e.v_reg j) = some (s.v_reg j)) ∧
    (∀ a, (Emu.execute s (0xF055 + 256 * x) rng).toOption.map
        (fun e => e.ram a)
      = some (if s.i_reg ≤ a ∧ a ≤ s.i_reg + x then s.v_reg (a - s.i_reg)
              else s.ram a)) ∧
    (∀ p, (Emu.execute s (0xF055 + 256 * x) rng).toOption.map
        (fun e => e.screen p) = some (s.screen p)) ∧
    ((Emu.execute s (0xF065 + 256 * x) rng).toOption.map (fun e =>
        (e.pc, e.i_reg, e.sp, e.dt, e.st))
      = some (s.pc, s.i_reg, s.sp, s.dt, s.st)) ∧
    (∀ a, (Emu.execute s (0xF065 + 256 * x) rng).toOption.map
        (fun e => e.ram a) = some (s.ram a)) ∧
    (∀ j, (Emu.execute s (0xF065 + 256 * x) rng).toOption.map
        (fun e => e.v_reg j)
      = some (if j ≤ x then s.ram (s.i_reg + j) else s.v_reg j)) := by
  have hd1 : (0xF055 + 256 * x) / 4096 % 16 = 0xF := by omega
  have hd2 : (0xF055 + 256 * x) / 256 % 16 = x := by omega
  have hd3 : (0xF055 + 256 * x) / 16 % 16 = 5 := by omega
  have hd4 : (0xF055 + 256 * x) % 16 = 5 := by omega
  have he1 : (0xF065 + 256 * x) / 4096 % 16 = 0xF := by omega
  have he2 : (0xF065 + 256 * x) / 256 % 16 = x := by omega
  have he3 : (0xF065 + 256 * x) / 16 % 16 = 6 := by omega
  have he4 : (0xF065 + 256 * x) % 16 = 5 := by omega
  have hred5 : Emu.execute s (0xF055 + 256 * x) rng
      = .ok { s with ram := storeRegs s.v_reg s.ram s.i_reg x } := by
    simp only [Emu.execute, digit1_eq, digit2_eq, digit3_eq, digit4_eq,
      nnn_eq, nn_eq, hd1, hd2, hd3, hd4]
    norm_num [hi]
  have hred6 : Emu.execute s (0xF065 + 256 * x) rng
      = .ok { s with v_reg := loadRegs s.ram s.v_reg s.i_reg x } := by
    simp only [Emu.execute, digit1_eq, digit2_eq, digit3_eq, digit4_eq,
      nnn_eq, nn_eq, he1, he2, he3, he4]
    norm_num [hi]
  refine ⟨?_, ?_, ?_, ?_, ?_, ?_, ?_⟩
  · rw [hred5]; rfl
  · intro j; rw [hred5]; rfl
  · intro a; rw [hred5]
    simp [Except.toOption, storeRegs_eval]
  · intro p; rw [hred5]; rfl
  · rw [hred6]; rfl
  · intro a; rw [hred6]; rfl
  · intro j; rw [hred6]
    simp [Except.toOption, loadRegs_eval]

theorem fx55_fx65_frame_witness :
    (Emu.execute stateBCD255 (0xF055 + 256 * 3) 0).toOption.map (fun e =>
        (e.pc, e.i_reg, e.sp, e.dt, e.st))
      = some (stateBCD255.pc, stateBCD255.i_reg, stateBCD255.sp,
              stateBCD255.dt, stateBCD255.st) :=
  (fx55_fx65_frame stateBCD255 0 3 (by norm_num) (by decide)).1

/-- `List.find?` over `List.range n` returns the least index satisfying the
predicate: the `FX0A` key scan visits keys in ascending order. -/
theorem find?_range_eq_some {n k : ℕ} {p : ℕ → Bool} (hk : k < n)
    (hpk : p k = true) (hmin : ∀ j, j < k → p j = false) :
    (List.range n).find? p = some k := by
  induction n with
  | zero => omega
  | succ m ih =>
    rw [List.range_succ, List.find?_append]
    by_cases h : k < m
    · rw [ih h]
      rfl
    · have hkm : k = m := by omega
      have hnone : (List.range m).find? p = none := by
        rw [List.find?_eq_none]
        intro j hj
        simp only [List.mem_range] at hj
        simp [hmin j (by omega)]
      rw [hnone, ← hkm]
      simp [List.find?, hpk]

/-- The big-endian byte combine of `fetch` for an `FX0A` instruction word. -/
theorem fx0a_opcode_combine :
    ∀ x < 16, ((240 + x) <<< 8) ||| 10 = 0xF000 + 256 * x + 10 := by
  decide

/-- **C3.** Executing `FX0A` (via `tick`, which fetches the word at `pc` and
advances `pc` by 2 before dispatch) scans keys 0–15 in ascending order:
if no key is pressed, `pc` is rewound by 2, a net `pc` change of 0 for the
tick, and the registers are untouched, so the same instruction re-executes
next tick; if some key is pressed, the lowest-numbered pressed key index is
stored into `Vx` and `pc` ends 2 past the instruction. -/
theorem fx0a_key_wait (s : Emu) (rng x : ℕ) (hx : x < 16)
    (hpc : s.pc + 1 < 4096) (hop : s.ram s.pc = 240 + x)
    (hop2 : s.ram (s.pc + 1) = 10) :
    ((∀ j, j < 16 → s.keys j = false) →
      ((Emu.tick s rng).toOption.map Emu.pc = some s.pc) ∧
      (∀ j, (Emu.tick s rng).toOption.map (fun e => e.v_reg j)
          = some (s.v_reg j))) ∧
    (∀ k, k < 16 → s.keys k = true → (∀ j, j < k → s.keys j = false) →
      (Emu.tick s rng).toOption.map (fun e => (e.pc, e.v_reg x))
        = some (s.pc + 2, k)) := by
  have h0 : s.pc < 4096 := by omega
  have hcomb := fx0a_opcode_combine x hx
  have hd1 : (0xF000 + 256 * x + 10) / 4096 % 16 = 0xF := by omega
  have hd2 : (0xF000 + 256 * x + 10) / 256 % 16 = x := by omega
  have hd3 : (0xF000 + 256 * x + 10) / 16 % 16 = 0 := by omega
  have hd4 : (0xF000 + 256 * x + 10) % 16 = 0xA := by omega
  have hred : ∀ t : Emu, Emu.tick s rng
      = Emu.execute { s with pc := s.pc + 2 } (0xF000 + 256 * x + 10) rng := by
    intro _
    simp only [Emu.tick, Emu.fetch, if_pos h0, if_pos hpc, hop, hop2, hcomb]
  rw [hred s]
  constructor
  · intro hnone
    have hfind : (List.range 16).find? (fun i => s.keys i) = none := by
      rw [List.find?_eq_none]
      intro j hj
      simp only [List.mem_range] at hj
      simp [hnone j hj]
    simp only [Emu.execute, digit1_eq, digit2_eq, digit3_eq, digit4_eq,
      nnn_eq, nn_eq, hd1, hd2, hd3, hd4]
    norm_num [hfind, Except.toOption]
  · intro k hk hpk hmin
    have hfind : (List.range 16).find? (fun i => s.keys i) = some k :=
      find?_range_eq_some hk (by simpa using hpk)
        (fun j hj => by simpa using hmin j hj)
    simp only [Emu.execute, digit1_eq, digit2_eq, digit3_eq, digit4_eq,
      nnn_eq, nn_eq, hd1, hd2, hd3, hd4]
    norm_num [hfind, Except.toOption, updF]

/-- A fresh state holding an `F30A` (wait-for-key into `V3`) instruction at
the load offset, with key 5 pressed. -/
def stateKey5 : Emu :=
  { Emu.new with
      ram := updF (updF Emu.new.ram 0x200 (240 + 3)) 0x201 10
      keys := updF Emu.new.keys 5 true }

theorem fx0a_key_wait_witness :
    (Emu.tick stateKey5 0).toOption.map (fun e => (e.pc, e.v_reg 3))
      = some (stateKey5.pc + 2, 5) :=
  (fx0a_key_wait stateKey5 0 3 (by norm_num) (by decide) (by decide)
    (by decide)).2 5 (by norm_num) (by decide) (by decide)

/-- **C4 counterexample.** `BNNN` takes an address operand but applies no
12-bit mask: from `V0 = 255`, executing `0xBFFF` assigns `pc = 4350`, which
is neither below 4096 nor equal to the 12-bit-masked value, refuting the
claim that every address-bearing instruction masks the program counter to
12 bits before assignment. -/
theorem bounds_claim_false :
    ((Emu.execute stateV0Max 0xBFFF 0).toOption.map Emu.pc = some 4350) ∧
    ¬ ((4350 : ℕ) < 4096) ∧
    ¬ ((Emu.execute stateV0Max 0xBFFF 0).toOption.map Emu.pc
        = some (4350 % 4096)) := by
  decide

/-- **C4 (amended).** Bounds behaviour under the instruction semantics:
`1NNN`, `2NNN` mask the jump target and `ANNN` masks the index-register
operand to 12 bits before assignment (so those stay below 4096); 8-bit
register arithmetic wraps modulo 256 (`7XNN`, `8XYE`); index-register
arithmetic wraps modulo 65536 (`FX1E`).  `BNNN` applies no mask (see the
counterexample), and `EX9E`/`EXA1` index the key array by the unmasked value
of `Vx`, panicking for `Vx ≥ 16`. -/
theorem bounds_invariants :
    (∀ (s : Emu) (rng op : ℕ), op / 4096 % 16 = 1 →
      (Emu.execute s op rng).toOption.map Emu.pc = some (op % 4096) ∧
      op % 4096 < 4096) ∧
    (∀ (s : Emu) (rng op : ℕ), op / 4096 % 16 = 2 → s.sp < 16 →
      (Emu.execute s op rng).toOption.map Emu.pc = some (op % 4096) ∧
      op % 4096 < 4096) ∧
    (∀ (s : Emu) (rng op : ℕ), op / 4096 % 16 = 0xA →
      (Emu.execute s op rng).toOption.map Emu.i_reg = some (op % 4096) ∧
      op % 4096 < 4096) ∧
    (∀ (s : Emu) (rng x nn : ℕ), x < 16 → nn < 256 →
      (Emu.execute s (0x7000 + 256 * x + nn) rng).toOption.map
          (fun e => e.v_reg x) = some ((s.v_reg x + nn) % 256) ∧
      (s.v_reg x + nn) % 256 < 256) ∧
    (∀ (s : Emu) (rng x y : ℕ), x < 16 → y < 16 → x ≠ 0xF →
      (Emu.execute s (0x800E + 256 * x + 16 * y) rng).toOption.map
          (fun e => e.v_reg x) = some (s.v_reg x * 2 % 256) ∧
      s.v_reg x * 2 % 256 < 256) ∧
    (∀ (s : Emu) (rng x : ℕ), x < 16 →
      (Emu.execute s (0xF01E + 256 * x) rng).toOption.map Emu.i_reg
        = some ((s.i_reg + s.v_reg x) % 65536) ∧
      (s.i_reg + s.v_reg x) % 65536 < 65536) := by
  refine ⟨?_, ?_, ?_, ?_, ?_, ?_⟩
  · intro s rng op hd1
    refine ⟨?_, by omega⟩
    simp only [Emu.execute, digit1_eq, digit2_eq, digit3_eq, digit4_eq,
      nnn_eq, nn_eq, hd1]
    norm_num [Except.toOption]
  · intro s rng op hd1 hsp
    refine ⟨?_, by omega⟩
    simp only [Emu.execute, Emu.push, digit1_eq, digit2_eq, digit3_eq,
      digit4_eq, nnn_eq, nn_eq, hd1]
    norm_num [Except.toOption, hsp]
  · intro s rng op hd1
    refine ⟨?_, by omega⟩
    simp only [Emu.execute, digit1_eq, digit2_eq, digit3_eq, digit4_eq,
      nnn_eq, nn_eq, hd1]
    norm_num [Except.toOption]
  · intro s rng x nn hx hnn
    refine ⟨?_, by omega⟩
    have hd1 : (0x7000 + 256 * x + nn) / 4096 % 16 = 7 := by omega
    have hd2 : (0x7000 + 256 * x + nn) / 256 % 16 = x := by omega
    have hn : (0x7000 + 256 * x + nn) % 256 = nn := by omega
    simp only [Emu.execute, digit1_eq, digit2_eq, digit3_eq, digit4_eq,
      nnn_eq, nn_eq, hd1, hd2, hn]
    norm_num [Except.toOption, updF]
  · intro s rng x y hx hy hxf
    refine ⟨?_, by omega⟩
    have hd1 : (0x800E + 256 * x + 16 * y) / 4096 % 16 = 8 := by omega
    have hd2 : (0x800E + 256 * x + 16 * y) / 256 % 16 = x := by omega
    have hd3 : (0x800E + 256 * x + 16 * y) / 16 % 16 = y := by omega
    have hd4 : (0x800E + 256 * x + 16 * y) % 16 = 0xE := by omega
    simp only [Emu.execute, digit1_eq, digit2_eq, digit3_eq, digit4_eq,
      nnn_eq, nn_eq, hd1, hd2, hd3, hd4]
    norm_num [Except.toOption, updF, hxf]
  · intro s rng x hx
    refine ⟨?_, by omega⟩
    have hd1 : (0xF01E + 256 * x) / 4096 % 16 = 0xF := by omega
    have hd2 : (0xF01E + 256 * x) / 256 % 16 = x := by omega
    have hd3 : (0xF01E + 256 * x) / 16 % 16 = 1 := by omega
    have hd4 : (0xF01E + 256 * x) % 16 = 0xE := by omega
    simp only [Emu.execute, digit1_eq, digit2_eq, digit3_eq, digit4_eq,
      nnn_eq, nn_eq, hd1, hd2, hd3, hd4]
    norm_num [Except.toOption]

theorem bounds_invariants_witness :
    ((Emu.execute Emu.new 0x1234 0).toOption.map Emu.pc
        = some (0x1234 % 4096) ∧ 0x1234 % 4096 < 4096) :=
  bounds_invariants.1 Emu.new 0 0x1234 (by norm_num)

/-! ## The sprite draw as a pointwise XOR -/

/-- Whether some 1-bit of the `DXYN` sprite (row bytes at `ram[i..i+n)`,
most-significant bit first, origin `(vx, vy)`) maps to framebuffer cell `a`,
i.e. `a = (vx + col) % 64 + 64 * ((vy + row) % 32)` for a set sprite bit. -/
def spriteHits (ram : ℕ → ℕ) (i vx vy n a : ℕ) : Bool :=
  (List.range n).any fun r => (List.range 8).any fun c =>
    bitAt (ram (i + r)) c && (a == (vx + c) % 64 + 64 * ((vy + r) % 32))

/-- Whether some 1-bit of the sprite lands on an already-lit cell of `scr`:
the collision condition `VF` reports. -/
def spriteCollides (scr : ℕ → Bool) (ram : ℕ → ℕ) (i vx vy n : ℕ) : Bool :=
  (List.range n).any fun r => (List.range 8).any fun c =>
    bitAt (ram (i + r)) c && scr ((vx + c) % 64 + 64 * ((vy + r) % 32))

theorem any_congr {α : Type} {l : List α} {p q : α → Bool}
    (h : ∀ z ∈ l, p z = q z) : l.any p = l.any q := by
  induction l with
  | nil => rfl
  | cons z zs ih =>
    simp only [List.any_cons, h z (List.mem_cons_self z zs),
      ih fun w hw => h w (List.mem_cons_of_mem z hw)]

theorem xor_xor_or (b p q : Bool) (h : p = true → q = false) :
    xor (xor b p) q = xor b (p || q) := by
  cases p <;> cases q <;> simp_all

/-- Two columns of one sprite row hit different framebuffer cells. -/
theorem colIdx_ne {xc yrow c c' : ℕ} (hc : c < 8) (hc' : c' < 8)
    (hne : c ≠ c') :
    (xc + c) % 64 + 64 * yrow ≠ (xc + c') % 64 + 64 * yrow := by
  omega

/-- Bits of two different sprite rows hit different framebuffer cells:
the wrapped row coordinates differ, and the cell index determines the row. -/
theorem pixIdx_ne {xc yc r r' c c' : ℕ} (hr : r < 32) (hr' : r' < 32)
    (_hc : c < 8) (_hc' : c' < 8) (hne : r ≠ r') :
    (xc + c) % 64 + 64 * ((yc + r) % 32)
      ≠ (xc + c') % 64 + 64 * ((yc + r') % 32) := by
  omega

/-- Pointwise effect of one sprite row: each visited cell is flipped at most
once (distinct columns give distinct cells), so the final screen is the
input screen XOR the row's hit mask, and the flipped flag accumulates
whether some hit cell was lit in the input screen. -/
theorem drawRowCols_eval (xc yrow pixels : ℕ) :
    ∀ (cols : List ℕ) (scr : ℕ → Bool) (fl : Bool), cols.Nodup →
      (∀ c ∈ cols, c < 8) →
      (∀ a, (drawRowCols xc yrow pixels cols (scr, fl)).1 a
          = xor (scr a) (cols.any fun c =>
              bitAt pixels c && (a == (xc + c) % 64 + 64 * yrow))) ∧
      (drawRowCols xc yrow pixels cols (scr, fl)).2
          = (fl || cols.any fun c =>
              bitAt pixels c && scr ((xc + c) % 64 + 64 * yrow)) := by
  intro cols
  induction cols with
  | nil =>
    intro scr fl _ _
    constructor
    · intro a
      simp [drawRowCols]
    · simp [drawRowCols]
  | cons c0 cs ih =>
    intro scr fl hnd hb
    obtain ⟨hc0, hnd2⟩ := List.nodup_cons.mp hnd
    have hb2 : ∀ c ∈ cs, c < 8 := fun c hc => hb c (List.mem_cons_of_mem _ hc)
    have hc08 : c0 < 8 := hb c0 (List.mem_cons_self c0 cs)
    by_cases hbit : bitAt pixels c0
    · have hstep : drawRowCols xc yrow pixels (c0 :: cs) (scr, fl)
          = drawRowCols xc yrow pixels cs
              (updF scr ((xc + c0) % 64 + 64 * yrow)
                (!(scr ((xc + c0) % 64 + 64 * yrow))),
               fl || scr ((xc + c0) % 64 + 64 * yrow)) := by
        simp [drawRowCols, hbit]
      obtain ⟨ihs, ihf⟩ := ih _ _ hnd2 hb2
      constructor
      · intro a
        rw [hstep, ihs a]
        by_cases ha : a = (xc + c0) % 64 + 64 * yrow
        · subst ha
          have hcs : (cs.any fun c => bitAt pixels c &&
              (((xc + c0) % 64 + 64 * yrow : ℕ)
                == (xc + c) % 64 + 64 * yrow)) = false := by
            rw [List.any_eq_false]
            intro c hc
            have hne : c0 ≠ c := fun h => hc0 (h ▸ hc)
            have hix : (xc + c0) % 64 + 64 * yrow
                ≠ (xc + c) % 64 + 64 * yrow := colIdx_ne hc08 (hb2 c hc) hne
            simp [hix]
          simp [updF, hcs, hbit]
        · have hbeq : (a == (xc + c0) % 64 + 64 * yrow) = false := by
            simp [ha]
          simp [updF, ha, hbeq]
      · rw [hstep, ihf]
        have hcong : (cs.any fun c => bitAt pixels c &&
              updF scr ((xc + c0) % 64 + 64 * yrow)
                (!(scr ((xc + c0) % 64 + 64 * yrow)))
                ((xc + c) % 64 + 64 * yrow))
            = cs.any fun c => bitAt pixels c
                && scr ((xc + c) % 64 + 64 * yrow) := by
          apply any_congr
          intro c hc
          have hne : c ≠ c0 := fun h => hc0 (h ▸ hc)
          have hix : (xc + c) % 64 + 64 * yrow
              ≠ (xc + c0) % 64 + 64 * yrow := colIdx_ne (hb2 c hc) hc08 hne
          simp [updF, hix]
        rw [hcong]
        simp [hbit, Bool.or_assoc]
    · have hstep : drawRowCols xc yrow pixels (c0 :: cs) (scr, fl)
          = drawRowCols xc yrow pixels cs (scr, fl) := by
        simp [drawRowCols, hbit]
      obtain ⟨ihs, ihf⟩ := ih scr fl hnd2 hb2
      constructor
      · intro a
        rw [hstep, ihs a]
        simp [hbit]
      · rw [hstep, ihf]
        simp [hbit]

/-- Pointwise effect of the whole sprite loop: rows are pairwise disjoint in
the cells they touch (the wrapped row coordinate determines the row for
heights up to 32), so the final screen is the input screen XOR the sprite's
hit mask, the flipped flag is the collision condition evaluated on the
*input* screen, and every row byte read stays inside the RAM. -/
theorem drawRows_eval (ram : ℕ → ℕ) (i xc yc : ℕ) :
    ∀ (rows : List ℕ) (scr : ℕ → Bool) (fl : Bool), rows.Nodup →
      (∀ r ∈ rows, r < 32) → (∀ r ∈ rows, i + r < 4096) →
      ∃ scr2 fl2,
        drawRows ram i xc yc rows (scr, fl) = .ok (scr2, fl2) ∧
        (∀ a, scr2 a = xor (scr a)
          (rows.any fun r => (List.range 8).any fun c =>
            bitAt (ram (i + r)) c
              && (a == (xc + c) % 64 + 64 * ((yc + r) % 32)))) ∧
        fl2 = (fl || rows.any fun r => (List.range 8).any fun c =>
            bitAt (ram (i + r)) c
              && scr ((xc + c) % 64 + 64 * ((yc + r) % 32))) := by
  intro rows
  induction rows with
  | nil =>
    intro scr fl _ _ _
    exact ⟨scr, fl, rfl, fun a => by simp, by simp⟩
  | cons r0 rs ih =>
    intro scr fl hnd hb32 hbnd
    obtain ⟨hr0, hnd2⟩ := List.nodup_cons.mp hnd
    have hb32r : ∀ r ∈ rs, r < 32 := fun r hr => hb32 r (List.mem_cons_of_mem _ hr)
    have hbndr : ∀ r ∈ rs, i + r < 4096 :=
      fun r hr => hbnd r (List.mem_cons_of_mem _ hr)
    have hr032 : r0 < 32 := hb32 r0 (List.mem_cons_self r0 rs)
    have hstep : drawRows ram i xc yc (r0 :: rs) (scr, fl)
        = drawRows ram i xc yc rs
            (drawRowCols xc ((yc + r0) % 32) (ram (i + r0))
              (List.range 8) (scr, fl)) := by
      simp [drawRows, hbnd r0 (List.mem_cons_self r0 rs)]
    obtain ⟨hcs, hcf⟩ := drawRowCols_eval xc ((yc + r0) % 32) (ram (i + r0))
        (List.range 8) scr fl (List.nodup_range 8)
        (fun c hc => List.mem_range.mp hc)
    obtain ⟨scr2, fl2, heq, hscr2, hfl2⟩ :=
      ih (drawRowCols xc ((yc + r0) % 32) (ram (i + r0))
            (List.range 8) (scr, fl)).1
         (drawRowCols xc ((yc + r0) % 32) (ram (i + r0))
            (List.range 8) (scr, fl)).2 hnd2 hb32r hbndr
    refine ⟨scr2, fl2, ?_, ?_, ?_⟩
    · rw [hstep]
      exact heq
    · intro a
      rw [hscr2 a, hcs a, List.any_cons]
      apply xor_xor_or
      intro hP
      obtain ⟨c, hc, hcP⟩ := List.any_eq_true.mp hP
      obtain ⟨-, habeq⟩ := Bool.and_eq_true_iff.mp hcP
      have ha : a = (xc + c) % 64 + 64 * ((yc + r0) % 32) := eq_of_beq habeq
      rw [List.any_eq_false]
      intro r2 hr2
      rw [Bool.not_eq_true, List.any_eq_false]
      intro c2 hc2 hcontra
      obtain ⟨-, habeq2⟩ := Bool.and_eq_true_iff.mp hcontra
      have ha2 : a = (xc + c2) % 64 + 64 * ((yc + r2) % 32) := eq_of_beq habeq2
      exact pixIdx_ne hr032 (hb32r r2 hr2) (List.mem_range.mp hc)
        (List.mem_range.mp hc2) (fun h => hr0 (h ▸ hr2)) (ha ▸ ha2)
    · rw [hfl2, hcf]
      have hcong : (rs.any fun r => (List.range 8).any fun c =>
            bitAt (ram (i + r)) c &&
              (drawRowCols xc ((yc + r0) % 32) (ram (i + r0))
                (List.range 8) (scr, fl)).1
                ((xc + c) % 64 + 64 * ((yc + r) % 32)))
          = rs.any fun r => (List.range 8).any fun c =>
              bitAt (ram (i + r)) c
                && scr ((xc + c) % 64 + 64 * ((yc + r) % 32)) := by
        apply any_congr
        intro r2 hr2
        apply any_congr
        intro c2 hc2
        congr 1
        rw [hcs ((xc + c2) % 64 + 64 * ((yc + r2) % 32))]
        have hfalse : ((List.range 8).any fun c =>
            bitAt (ram (i + r0)) c &&
              (((xc + c2) % 64 + 64 * ((yc + r2) % 32) : ℕ)
                == (xc + c) % 64 + 64 * ((yc + r0) % 32))) = false := by
          rw [List.any_eq_false]
          intro c hc hcontra
          obtain ⟨-, habeq⟩ := Bool.and_eq_true_iff.mp hcontra
          exact pixIdx_ne (hb32r r2 hr2) hr032 (List.mem_range.mp hc2)
            (List.mem_range.mp hc) (fun h => hr0 (h ▸ hr2)) (eq_of_beq habeq)
        rw [hfalse]
        simp
      rw [hcong, List.any_cons, Bool.or_assoc]

/-- A fresh state with an all-ones 8×1 sprite byte at `I = 0x300` and the
draw origin `V0 = 63` (x), `V1 = 0` (y). -/
def stateSprite : Emu :=
  { Emu.new with
      i_reg := 0x300
      ram := updF Emu.new.ram 0x300 0xFF
      v_reg := updF Emu.new.v_reg 0 63 }

/-- **C1.** `DXYN` XORs onto the framebuffer each 1-bit (most-significant
first) of the `N` row bytes read at `I, I+1, …` at cell
`(Vx + col) % 64 + 64 * ((Vy + row) % 32)`; `VF` is set to 1 iff some such
XOR turned an on pixel off, and `I` is unchanged.  In particular an
all-ones 8×1 sprite drawn at `x = 63, y = 0` on a cleared screen lights
row-0 columns `{63, 0, 1, 2, 3, 4, 5, 6}` with `VF = 0`, and drawing it
again turns them all off with `VF = 1`. -/
theorem dxyn_sprite_xor (s : Emu) (rng x y n : ℕ) (hx : x < 16) (hy : y < 16)
    (hn : n < 16) (hi : s.i_reg + n ≤ 4096) :
    (∀ a, (Emu.execute s (0xD000 + 256 * x + 16 * y + n) rng).toOption.map
        (fun e => e.screen a)
      = some (xor (s.screen a)
          (spriteHits s.ram s.i_reg (s.v_reg x) (s.v_reg y) n a))) ∧
    ((Emu.execute s (0xD000 + 256 * x + 16 * y + n) rng).toOption.map
        (fun e => e.v_reg 0xF)
      = some (if spriteCollides s.screen s.ram s.i_reg (s.v_reg x)
                  (s.v_reg y) n then 1 else 0)) ∧
    ((Emu.execute s (0xD000 + 256 * x + 16 * y + n) rng).toOption.map
        Emu.i_reg = some s.i_reg) ∧
    ((Emu.execute stateSprite 0xD011 0).toOption.map
        (fun e => ((List.range 64).map fun c => e.screen c, e.v_reg 0xF))
      = some ((List.range 64).map fun c => decide (c < 7 ∨ c = 63), 0)) ∧
    (((Emu.execute stateSprite 0xD011 0).bind
        (fun e => Emu.execute e 0xD011 0)).toOption.map
        (fun e => ((List.range 64).map fun c => e.screen c, e.v_reg 0xF))
      = some ((List.range 64).map fun _ => false, 1)) := by
  have hd1 : (0xD000 + 256 * x + 16 * y + n) / 4096 % 16 = 0xD := by omega
  have hd2 : (0xD000 + 256 * x + 16 * y + n) / 256 % 16 = x := by omega
  have hd3 : (0xD000 + 256 * x + 16 * y + n) / 16 % 16 = y := by omega
  have hd4 : (0xD000 + 256 * x + 16 * y + n) % 16 = n := by omega
  obtain ⟨scr2, fl2, heq, hscr2, hfl2⟩ :=
    drawRows_eval s.ram s.i_reg (s.v_reg x) (s.v_reg y) (List.range n)
      s.screen false (List.nodup_range n)
      (fun r hr => by have := List.mem_range.mp hr; omega)
      (fun r hr => by have := List.mem_range.mp hr; omega)
  have hexec : Emu.execute s (0xD000 + 256 * x + 16 * y + n) rng
      = .ok { s with screen := scr2,
                     v_reg := updF s.v_reg 0xF (if fl2 then 1 else 0) } := by
    simp only [Emu.execute, digit1_eq, digit2_eq, digit3_eq, digit4_eq,
      nnn_eq, nn_eq, hd1, hd2, hd3, hd4]
    norm_num [heq]
  refine ⟨?_, ?_, ?_, by decide, by decide⟩
  · intro a
    rw [hexec]
    simp only [Except.toOption, Option.map, spriteHits]
    rw [hscr2 a]
  · rw [hexec]
    simp only [Except.toOption, Option.map, spriteCollides, updF]
    rw [hfl2]
    simp
  · rw [hexec]
    rfl

theorem dxyn_sprite_xor_witness :
    (Emu.execute stateSprite (0xD000 + 256 * 0 + 16 * 1 + 1) 0).toOption.map
        Emu.i_reg = some stateSprite.i_reg :=
  (dxyn_sprite_xor stateSprite 0 0 1 1 (by norm_num) (by norm_num)
    (by norm_num) (by decide)).2.2.1

end Chip8
